import Mathlib

/-!
Verification of the DefDAP HRDIC grain-segmentation engine.

Shallow embedding of `src/hrdic.py` (class `Map` and class `Grain`) and
proofs about its grain-segmentation flood fill, crop window, affine-link
error behaviour and cross-map correspondence resolver.

Conventions of the embedding:
* A label grid (`self.grains` in the source, a numpy 2-D integer array) is
  modelled as a total function `Coord → Int`; the Python access
  `grains[t, s]` (row `t`, column `s`) is `grid (s, t)` here, with
  coordinates `(x, y)`.  All reads/writes performed by the source stay in
  the `xDim × yDim` window whenever `2 ≤ xDim` and `2 ≤ yDim` (the source
  raises `IndexError` on degenerate 1-pixel-wide maps, see `moves`), so
  theorems about whole runs carry those bounds as hypotheses.
* The scalar field `self.max_shear` (floats in the source, only ever
  copied, never computed with during segmentation) is modelled as an
  opaque integer-valued function `maxShear : Nat → Nat → Int`, indexed
  row-first exactly like the numpy array.
* Python loops become fuel recursion; `findGrains` runs with fuel
  `xDim * yDim + 1`, which is shown sufficient because every pass of the
  outer loop strictly decreases the number of `0`-labelled pixels.
* The local Python list `grain` in `floodFill` mirrors
  `currentGrain.coordList` and is never read after the loop; it is not
  modelled separately.
* `findGrains` in the source also stores the list of purged (undersized)
  grains nowhere; the embedding records them in the `discarded` field of
  `SegSt` purely so that statements about purged regions can name them.
  The `grid`, `grainList` and `grainIndex` fields evolve exactly as
  `self.grains`, `self.grainList` and `grainIndex` do in the source.
-/

namespace Hrdic

/-- A pixel coordinate `(x, y)`: `x` is the column, `y` the row. -/
abbrev Coord := Nat × Nat

/-- A label grid (`self.grains`): `0` unknown, `-1` boundary, `-2` purged,
positive `k` = grain `k`. -/
abbrev LabelGrid := Coord → Int

/-- Write a single pixel of a label grid (`self.grains[t, s] = v`). -/
def setPix (g : LabelGrid) (c : Coord) (v : Int) : LabelGrid :=
  fun d => if d = c then v else g d

/-- The static data `floodFill` reads: the cropped map size
(`self.xDim`, `self.yDim`), the scalar field `self.max_shear` (row-first
indexing) and the crop offsets `self.cropDists[0, 0]`, `self.cropDists[1, 0]`. -/
structure FillParams where
  xDim : Nat
  yDim : Nat
  maxShear : Nat → Nat → Int
  cropX : Nat
  cropY : Nat

/-- The candidate neighbour moves of `floodFill` (hrdic.py lines 302-318):
start from `[(x+1,y), (x-1,y), (x,y+1), (x,y-1)]` and `np.delete` the
entries that fall outside the map, tracking the index shift exactly as the
source does.  (For a map of width or height `1` the source keeps an
out-of-range move and crashes on the subsequent numpy read; all theorems
about whole runs therefore assume `2 ≤ xDim` and `2 ≤ yDim`.) -/
def moves (P : FillParams) (x y : Nat) : List Coord :=
  let m0 : List Coord := [(x + 1, y), (x - 1, y), (x, y + 1), (x, y - 1)]
  let p : List Coord × Nat :=
    if x ≤ 0 then (m0.eraseIdx 1, 1)
    else if P.xDim - 1 ≤ x then (m0.eraseIdx 0, 1)
    else (m0, 0)
  if y ≤ 0 then p.1.eraseIdx (3 - p.2)
  else if P.yDim - 1 ≤ y then p.1.eraseIdx (2 - p.2)
  else p.1

/-- A grain (class `Grain`): the ordered list of claimed coordinates and
the parallel list of scalar samples recorded by `addPoint`. -/
structure Grain where
  coordList : List Coord
  maxShearList : List Int
deriving Repr, DecidableEq

/-- The mutable state of one `floodFill` pass: the label grid, the grain
lists built by `Grain.addPoint`, and the `newedge` frontier accumulator. -/
structure FillSt where
  grid : LabelGrid
  coordList : List Coord
  maxShearList : List Int
  newedge : List Coord

/-- Processing of one candidate move `(s, t)` of the frontier pixel
`(x, y)` (hrdic.py lines 320-329).  Note that in both branches the scalar
sample passed to `addPoint` is
`max_shear[y + cropDists[1,0], x + cropDists[0,0]]` — the field value at
the *frontier* pixel `(x, y)`, not at the absorbed pixel `(s, t)`. -/
def processMove (P : FillParams) (gi : Int) (x y : Nat) (st : FillSt) (m : Coord) :
    FillSt :=
  if st.grid m = 0 then
    { grid := setPix st.grid m gi,
      coordList := st.coordList ++ [m],
      maxShearList := st.maxShearList ++ [P.maxShear (y + P.cropY) (x + P.cropX)],
      newedge := st.newedge ++ [m] }
  else if st.grid m = -1 ∧ (m.1 > x ∨ m.2 > y) then
    { grid := setPix st.grid m gi,
      coordList := st.coordList ++ [m],
      maxShearList := st.maxShearList ++ [P.maxShear (y + P.cropY) (x + P.cropX)],
      newedge := st.newedge }
  else st

/-- `for (s, t) in moves: ...` — fold `processMove` over the move list. -/
def processMoves (P : FillParams) (gi : Int) (x y : Nat) (st : FillSt) :
    List Coord → FillSt
  | [] => st
  | m :: ms => processMoves P gi x y (processMove P gi x y st m) ms

/-- `for (x, y) in edge: ...` — process every frontier pixel of one pass. -/
def processEdge (P : FillParams) (gi : Int) (st : FillSt) : List Coord → FillSt
  | [] => st
  | (x, y) :: rest => processEdge P gi (processMoves P gi x y st (moves P x y)) rest

/-- The `while edge:` loop of `floodFill` (hrdic.py lines 298-334), with
explicit fuel.  Each fuel step is one iteration: process the current edge
with an empty `newedge` accumulator; if no new frontier was produced,
return, else continue with `edge = newedge`. -/
def fillLoop (P : FillParams) (gi : Int) :
    Nat → LabelGrid → List Coord → List Int → List Coord →
    LabelGrid × List Coord × List Int
  | 0, grid, coords, shears, _ => (grid, coords, shears)
  | fuel + 1, grid, coords, shears, edge =>
    let st := processEdge P gi ⟨grid, coords, shears, []⟩ edge
    if st.newedge = [] then (st.grid, st.coordList, st.maxShearList)
    else fillLoop P gi fuel st.grid st.coordList st.maxShearList st.newedge

/-- `Map.floodFill(x, y, grainIndex)` (hrdic.py lines 289-334): record the
seed point with its scalar sample, label it, then run the frontier loop.
Fuel `xDim * yDim + 1` bounds the number of `while` iterations (each
non-final iteration claims at least one fresh in-window pixel). -/
def floodFill (P : FillParams) (gi : Int) (x y : Nat) (grid : LabelGrid) :
    LabelGrid × Grain :=
  let r := fillLoop P gi (P.xDim * P.yDim + 1)
    (setPix grid (x, y) gi)
    [(x, y)]
    [P.maxShear (y + P.cropY) (x + P.cropX)]
    [(x, y)]
  (r.1, ⟨r.2.1, r.2.2⟩)

/-- `for coord in currentGrain.coordList: self.grains[coord[1], coord[0]] = -2`
(hrdic.py lines 254-255). -/
def purgeGrain : LabelGrid → List Coord → LabelGrid
  | grid, [] => grid
  | grid, c :: rest => purgeGrain (setPix grid c (-2)) rest

/-- Row-major enumeration of the in-window pixels (the order of
`np.where(self.grains == 0)`). -/
def rowMajor (P : FillParams) : List Coord :=
  (List.range P.yDim).flatMap fun y => (List.range P.xDim).map fun x => (x, y)

/-- First coordinate of `l` at which the grid is `0`. -/
def firstZeroAux (g : LabelGrid) : List Coord → Option Coord
  | [] => none
  | c :: rest => if g c = 0 then some c else firstZeroAux g rest

/-- `unknownPoints = np.where(self.grains == 0)` followed by taking
`(unknownPoints[1][0], unknownPoints[0][0])`: the first `0`-labelled pixel
in row-major scan order, if any. -/
def firstZero (P : FillParams) (g : LabelGrid) : Option Coord :=
  firstZeroAux g (rowMajor P)

/-- Number of `0`-labelled pixels inside the map window. -/
def countZeros (P : FillParams) (g : LabelGrid) : Nat :=
  ((rowMajor P).filter fun c => g c == 0).length

/-- The state of the segmentation loop of `findGrains`: the label grid
`self.grains`, `self.grainList`, the running `grainIndex` counter, and
(extra bookkeeping not stored by the source) the grains that were purged
for being undersized. -/
structure SegSt where
  grid : LabelGrid
  grainList : List Grain
  grainIndex : Nat
  discarded : List Grain

/-- One iteration of the `while unknownPoints` loop of `findGrains`
(hrdic.py lines 247-262), given the seed pixel `(x, y)`: flood fill from
the seed with the current grain index; if the claimed pixel count is below
`minGrainSize`, set every claimed pixel to `-2` and drop the grain,
otherwise append the grain and advance the index. -/
def segStep (P : FillParams) (minGrainSize : Nat) (st : SegSt) (x y : Nat) : SegSt :=
  let r := floodFill P (st.grainIndex : Int) x y st.grid
  if r.2.coordList.length < minGrainSize then
    { st with grid := purgeGrain r.1 r.2.coordList,
              discarded := st.discarded ++ [r.2] }
  else
    { st with grid := r.1,
              grainList := st.grainList ++ [r.2],
              grainIndex := st.grainIndex + 1 }

/-- The `while unknownPoints[0].shape[0] > 0:` loop of `findGrains`, with
explicit fuel: while some pixel is still labelled `0`, flood fill from the
first such pixel. -/
def segLoop (P : FillParams) (minGrainSize : Nat) : Nat → SegSt → SegSt
  | 0, st => st
  | fuel + 1, st =>
    match firstZero P st.grid with
    | none => st
    | some (x, y) => segLoop P minGrainSize fuel (segStep P minGrainSize st x y)

/-- `self.grains = np.copy(self.boundaries)`: the boundary mask cast to the
initial label grid, `-1` on boundary pixels and `0` elsewhere. -/
def initGrid (mask : Coord → Bool) : LabelGrid :=
  fun c => if mask c then -1 else 0

/-- The segmentation phase of `Map.findGrains(minGrainSize)` (hrdic.py
lines 235-262): initialise the grid from the boundary mask, start with an
empty grain list and `grainIndex = 1`, and loop until no `0` pixel
remains.  Fuel `xDim * yDim + 1` exceeds the initial number of unknown
pixels and is proved sufficient below.  (The EBSD-linking phase, lines
264-287, is modelled separately by `resolveGrainIds`.) -/
def findGrains (P : FillParams) (minGrainSize : Nat) (mask : Coord → Bool) : SegSt :=
  segLoop P minGrainSize (P.xDim * P.yDim + 1) ⟨initGrid mask, [], 1, []⟩

/-! Crop window (`Map.setCrop`, `Map.crop`, hrdic.py lines 71-86). -/

/-- Python slice `l[a : -b]` for non-negative `a`, `b`:  when `b = 0` the
stop index `-0 == 0` makes the slice *empty*; when `b > 0` the slice keeps
indices `a ≤ i < len l - b`.  This models exactly the numpy row/column
slicing performed by `Map.crop`. -/
def pySliceNegEnd (l : List α) (a b : Nat) : List α :=
  if b = 0 then [] else (l.take (l.length - b)).drop a

/-- The crop margins `self.cropDists` (left, right, top, bottom). -/
structure CropDists where
  xMin : Nat
  xMax : Nat
  yMin : Nat
  yMax : Nat
deriving Repr, DecidableEq

/-- `Map.setCrop(xMin, xMax, yMin, yMax)` with all four margins supplied
(the source computes `self.xDim`/`self.yDim` from the raw arguments and
crashes on `None`, flagged by its own `# need to fix this for no crops`
comment): stores the margins and returns the updated crop state together
with the new cropped dimensions `xdim - xMin - xMax` and
`ydim - yMin - yMax`. -/
def setCrop (xdim ydim : Nat) (xMin xMax yMin yMax : Nat) :
    CropDists × Int × Int :=
  (⟨xMin, xMax, yMin, yMax⟩,
   (xdim : Int) - xMin - xMax,
   (ydim : Int) - yMin - yMax)

/-- `Map.crop(mapData)`:
`mapData[yMin : -yMax, xMin : -xMax]` with the stored margins — rows first,
then the columns of each remaining row, using Python negative-stop
slicing. -/
def crop (cd : CropDists) (mapData : List (List α)) : List (List α) :=
  (pySliceNegEnd mapData cd.yMin cd.yMax).map fun row =>
    pySliceNegEnd row cd.xMin cd.xMax

/-! Cross-map correspondence resolver (`Map.findGrains`, lines 276-285).

The affine warp `tf.warp(...)` that produces `warpedDicGrains` is an
external skimage operation; the resolver below is parameterised by the
already-warped grid (flattened) and the reference map's own label grid
(`self.ebsdMap.grains`, flattened, same shape), which is how lines 278-285
consume them. -/

/-- `scipy.stats.mode` on a flat list of integers: the most frequent
value, ties broken towards the smallest value; `none` on an empty list
(where the source's subsequent `modeId[0]` raises `IndexError`). -/
def scipyMode (l : List Int) : Option Int :=
  l.foldl
    (fun acc v =>
      match acc with
      | none => some v
      | some b =>
        if l.count v > l.count b ∨ (l.count v = l.count b ∧ v < b) then some v
        else some b)
    none

/-- `self.ebsdMap.grains[warpedDicGrains == lbl]`: the reference-grid
values at the pixels where the warped deformed-map label grid equals
`lbl`. -/
def footprintVals (warped refGrains : List Int) (lbl : Int) : List Int :=
  (warped.zip refGrains).filterMap fun p => if p.1 = lbl then some p.2 else none

/-- The loop body of hrdic.py lines 278-284 over the listed grain indices:
`modeId, _ = mode(ebsdMap.grains[warpedDicGrains == i + 1])` followed by
`ebsdGrainIds.append(modeId[0] - 1)`.  An empty footprint makes
`modeId[0]` raise, which aborts the whole pass; this is modelled by
`Except.error`. -/
def resolveLoop (warped refGrains : List Int) : List Nat → Except String (List Int)
  | [] => .ok []
  | i :: rest =>
    match scipyMode (footprintVals warped refGrains ((i : Int) + 1)) with
    | none => .error "IndexError: mode of empty footprint"
    | some m =>
      match resolveLoop warped refGrains rest with
      | .error e => .error e
      | .ok l => .ok ((m - 1) :: l)

/-- `for i in range(len(self.grainList)): ...` — the resolver records, for
each deformed-map grain `i`, the modal reference label under its warped
footprint minus one. -/
def resolveGrainIds (numGrains : Nat) (warped refGrains : List Int) :
    Except String (List Int) :=
  resolveLoop warped refGrains (List.range numGrains)

/-! Affine link (`Map.linkEbsdMap`, `Map.warpToDicFrame`, lines 88-107).

The estimation itself is performed by the external
`skimage.transform.AffineTransform.estimate` on `np.array(homogPoints)`
and `np.array(ebsdMap.homogPoints)`.  Its observable behaviour at these
call sites: an empty point list becomes a 1-D `np.array([])` whose shape
the estimator cannot ingest, and two lists of different lengths fail
numpy broadcasting inside the estimation — in both cases an exception
propagates to the caller.  For two equal-length nonempty lists the
estimation always runs to completion, reporting success through its
boolean return value (false/unreliable for under-determined inputs of
fewer than 3 pairs); the repository code discards that value and
performs no validation of the point count itself. -/

/-- Success condition of `AffineTransform.estimate` on the two homologous
point lists: equal lengths and at least 3 pairs (degenerate collinear
configurations aside, which need real geometry and are not claimed). -/
def estimateSuccess (srcPts dstPts : List (Int × Int)) : Bool :=
  srcPts.length == dstPts.length && 3 ≤ srcPts.length

/-- The state established by `Map.linkEbsdMap`: the two point lists and
the success flag of the discarded `estimate` call. -/
structure EbsdLink where
  homogPoints : List (Int × Int)
  ebsdHomogPoints : List (Int × Int)
  estimateOk : Bool
deriving Repr, DecidableEq

/-- `Map.linkEbsdMap(ebsdMap)` (hrdic.py lines 88-91): build the transform
and call `estimate(np.array(homogPoints), np.array(ebsdMap.homogPoints))`.
The external estimator's exceptions — empty (1-D) point arrays, or point
arrays of mismatched length that fail broadcasting — propagate to the
caller.  Otherwise the boolean result of `estimate` is discarded and no
validation of the point count is performed, so equal-length lists of
fewer than 3 pairs are silently accepted. -/
def linkEbsdMap (homogPoints ebsdHomogPoints : List (Int × Int)) :
    Except String EbsdLink :=
  if homogPoints = [] ∨ ebsdHomogPoints = [] then
    .error "ValueError: estimate cannot ingest a 1-D empty point array"
  else if homogPoints.length ≠ ebsdHomogPoints.length then
    .error "ValueError: point arrays could not be broadcast together"
  else
    .ok ⟨homogPoints, ebsdHomogPoints, estimateSuccess homogPoints ebsdHomogPoints⟩

/-- The re-estimation performed at the start of `Map.warpToDicFrame`
(hrdic.py lines 101-102), with the same external-estimator behaviour as
`linkEbsdMap`: exceptions for empty or mismatched-length point lists
propagate, and otherwise the recomputed success flag is discarded and the
warp proceeds. -/
def warpToDicFrameEstimate (link : EbsdLink) : Except String EbsdLink :=
  if link.homogPoints = [] ∨ link.ebsdHomogPoints = [] then
    .error "ValueError: estimate cannot ingest a 1-D empty point array"
  else if link.homogPoints.length ≠ link.ebsdHomogPoints.length then
    .error "ValueError: point arrays could not be broadcast together"
  else
    .ok { link with
            estimateOk := estimateSuccess link.homogPoints link.ebsdHomogPoints }

/-! Geometry of the candidate moves. -/

/-- 4-adjacency of two pixels: they differ by one in exactly one axis. -/
def adj (c d : Coord) : Prop :=
  (c.2 = d.2 ∧ (d.1 = c.1 + 1 ∨ c.1 = d.1 + 1)) ∨
  (c.1 = d.1 ∧ (d.2 = c.2 + 1 ∨ c.2 = d.2 + 1))

instance (c d : Coord) : Decidable (adj c d) := by
  unfold adj; infer_instance

/-- Every candidate move of the frontier pixel `(x, y)` is one of its four
potential neighbours, with the decremented ones only kept when the
decrement is genuine. -/
theorem mem_moves_cases (P : FillParams) (x y : Nat) (m : Coord)
    (hm : m ∈ moves P x y) :
    m = (x + 1, y) ∨ (m = (x - 1, y) ∧ 1 ≤ x) ∨
    m = (x, y + 1) ∨ (m = (x, y - 1) ∧ 1 ≤ y) := by
  by_cases h1 : x ≤ 0
  · by_cases h2 : y ≤ 0
    · simp only [moves, h1, h2, if_true, if_false, List.eraseIdx] at hm
      simp only [List.mem_cons, List.not_mem_nil, or_false] at hm
      rcases hm with h | h <;> simp [h]
    · by_cases h3 : P.yDim - 1 ≤ y
      · simp only [moves, h1, h2, h3, if_true, if_false, List.eraseIdx] at hm
        simp only [List.mem_cons, List.not_mem_nil, or_false] at hm
        rcases hm with h | h <;> simp [h, Nat.one_le_iff_ne_zero, fun hh => h2 (Nat.le_of_eq hh)]
        · omega
      · simp only [moves, h1, h2, h3, if_true, if_false, List.eraseIdx] at hm
        simp only [List.mem_cons, List.not_mem_nil, or_false] at hm
        rcases hm with h | h | h <;> simp [h] <;> omega
  · by_cases h4 : P.xDim - 1 ≤ x
    · by_cases h2 : y ≤ 0
      · simp only [moves, h1, h4, h2, if_true, if_false, List.eraseIdx] at hm
        simp only [List.mem_cons, List.not_mem_nil, or_false] at hm
        rcases hm with h | h <;> simp [h] <;> omega
      · by_cases h3 : P.yDim - 1 ≤ y
        · simp only [moves, h1, h4, h2, h3, if_true, if_false, List.eraseIdx] at hm
          simp only [List.mem_cons, List.not_mem_nil, or_false] at hm
          rcases hm with h | h <;> simp [h] <;> omega
        · simp only [moves, h1, h4, h2, h3, if_true, if_false, List.eraseIdx] at hm
          simp only [List.mem_cons, List.not_mem_nil, or_false] at hm
          rcases hm with h | h | h <;> simp [h] <;> omega
    · by_cases h2 : y ≤ 0
      · simp only [moves, h1, h4, h2, if_true, if_false, List.eraseIdx] at hm
        simp only [List.mem_cons, List.not_mem_nil, or_false] at hm
        rcases hm with h | h | h <;> simp [h] <;> omega
      · by_cases h3 : P.yDim - 1 ≤ y
        · simp only [moves, h1, h4, h2, h3, if_true, if_false, List.eraseIdx] at hm
          simp only [List.mem_cons, List.not_mem_nil, or_false] at hm
          rcases hm with h | h | h <;> simp [h] <;> omega
        · simp only [moves, h1, h4, h2, h3, if_true, if_false, List.eraseIdx] at hm
          simp only [List.mem_cons, List.not_mem_nil, or_false] at hm
          rcases hm with h | h | h | h <;> simp [h] <;> omega

/-- Every candidate move is 4-adjacent to the frontier pixel. -/
theorem adj_of_mem_moves (P : FillParams) (x y : Nat) (m : Coord)
    (hm : m ∈ moves P x y) : adj (x, y) m := by
  rcases mem_moves_cases P x y m hm with h | ⟨h, hx⟩ | h | ⟨h, hy⟩ <;> subst h <;>
    simp [adj] <;> omega

/-- With map dimensions at least 2, the candidate moves of an in-window
frontier pixel stay inside the window: the boundary deletions of the
source remove exactly the out-of-range neighbours. -/
theorem mem_moves_window (P : FillParams) (x y : Nat) (m : Coord)
    (hx : 2 ≤ P.xDim) (hy : 2 ≤ P.yDim)
    (hxw : x < P.xDim) (hyw : y < P.yDim) (hm : m ∈ moves P x y) :
    m.1 < P.xDim ∧ m.2 < P.yDim := by
  have hxcase : ¬ (x ≤ 0) ∨ ¬ (P.xDim - 1 ≤ x) := by omega
  have hycase : ¬ (y ≤ 0) ∨ ¬ (P.yDim - 1 ≤ y) := by omega
  by_cases h1 : x ≤ 0 <;> by_cases h4 : P.xDim - 1 ≤ x <;>
    by_cases h2 : y ≤ 0 <;> by_cases h3 : P.yDim - 1 ≤ y <;>
    [skip; skip; skip; skip; skip; skip; skip; skip; skip; skip; skip; skip;
     skip; skip; skip; skip] <;>
  · first
    | omega
    | (simp only [moves, h1, h4, h2, h3, if_true, if_false, List.eraseIdx] at hm
       simp only [List.mem_cons, List.not_mem_nil, or_false] at hm
       rcases hm with h | h | h | h <;> (try subst h) <;> simp <;> omega)

/-! Chains of interior pixels: connectivity through non-boundary pixels. -/

/-- `ConnZero g0 S a b`: pixel `b` is reachable from `a` through a chain
of 4-adjacent pixels, each (after `a`) a member of `S` whose value in the
starting grid `g0` is `0` (non-boundary). -/
inductive ConnZero (g0 : LabelGrid) (S : List Coord) : Coord → Coord → Prop
  | refl (c : Coord) : ConnZero g0 S c c
  | step {a b c : Coord} :
      ConnZero g0 S a b → adj b c → g0 c = 0 → c ∈ S → ConnZero g0 S a c

/-- Connectivity is monotone in the allowed pixel set. -/
theorem ConnZero.mono {g0 : LabelGrid} {S S' : List Coord} {a b : Coord}
    (h : ConnZero g0 S a b) (hsub : ∀ x ∈ S, x ∈ S') : ConnZero g0 S' a b := by
  induction h with
  | refl => exact .refl _
  | step hab hadj hz hmem ih => exact .step ih hadj hz (hsub _ hmem)

/-! Invariants of one `floodFill` run. -/

theorem setPix_same (g : LabelGrid) (c : Coord) (v : Int) : setPix g c v c = v := by
  simp [setPix]

theorem setPix_other (g : LabelGrid) (c : Coord) (v : Int) (d : Coord) (h : d ≠ c) :
    setPix g c v d = g d := by
  simp [setPix, h]

/-- The data of one `floodFill` run that stays fixed throughout: the grain
index is a genuine label (neither `0` nor `-1`), the seed pixel is
non-boundary and in-window, and the map is at least 2×2 (so the move
filtering of the source is exact). -/
structure FillCtx (P : FillParams) (g0 : LabelGrid) (gi : Int) (seed : Coord) : Prop where
  gi_ne_zero : gi ≠ 0
  gi_ne_negone : gi ≠ -1
  seed_zero : g0 seed = 0
  seed_window : seed.1 < P.xDim ∧ seed.2 < P.yDim
  xdim2 : 2 ≤ P.xDim
  ydim2 : 2 ≤ P.yDim

/-- Invariant relating the evolving grid and claimed-coordinate list of a
`floodFill` run to the grid `g0` the run started from (before the seed was
labelled).  `wd` is the write discipline (only `0`/`-1` pixels ever get
overwritten, and only with `gi`), `mem_gi`/`gi_mem` say the claimed list
is exactly the set of `gi`-labelled pixels (up to pre-existing `gi`
pixels, of which there are none in a segmentation run), `conn` gives a
chain of absorbed interior pixels from the seed to every absorbed interior
pixel, `bnd` gives an absorbed interior 4-neighbour for every absorbed
boundary pixel, `classify` says only interior/boundary pixels are
absorbed, and `inW` keeps every claimed pixel inside the map window. -/
structure FillInv (P : FillParams) (g0 : LabelGrid) (gi : Int) (seed : Coord)
    (grid : LabelGrid) (coords : List Coord) : Prop where
  wd : ∀ c, grid c = g0 c ∨ (grid c = gi ∧ (g0 c = 0 ∨ g0 c = -1))
  mem_gi : ∀ c ∈ coords, grid c = gi
  gi_mem : ∀ c, grid c = gi → c ∈ coords ∨ g0 c = gi
  conn : ∀ c ∈ coords, g0 c = 0 → ConnZero g0 coords seed c
  bnd : ∀ c ∈ coords, g0 c = -1 → ∃ d, d ∈ coords ∧ g0 d = 0 ∧ adj d c
  classify : ∀ c ∈ coords, g0 c = 0 ∨ g0 c = -1
  inW : ∀ c ∈ coords, c.1 < P.xDim ∧ c.2 < P.yDim

/-- Processing one candidate move preserves the fill invariant, keeps the
frontier accumulator made of absorbed interior pixels, and only grows the
claimed list. -/
theorem processMove_inv {P : FillParams} {g0 : LabelGrid} {gi : Int} {seed : Coord}
    (ctx : FillCtx P g0 gi seed) {x y : Nat} {st : FillSt} {m : Coord}
    (hm : m ∈ moves P x y)
    (hfc : (x, y) ∈ st.coordList) (hfz : g0 (x, y) = 0)
    (hinv : FillInv P g0 gi seed st.grid st.coordList)
    (hnew : ∀ c ∈ st.newedge, c ∈ st.coordList ∧ g0 c = 0) :
    FillInv P g0 gi seed (processMove P gi x y st m).grid
        (processMove P gi x y st m).coordList ∧
    (∀ c ∈ (processMove P gi x y st m).newedge,
        c ∈ (processMove P gi x y st m).coordList ∧ g0 c = 0) ∧
    (∀ c ∈ st.coordList, c ∈ (processMove P gi x y st m).coordList) := by
  have hmw : m.1 < P.xDim ∧ m.2 < P.yDim :=
    mem_moves_window P x y m ctx.xdim2 ctx.ydim2
      (hinv.inW _ hfc).1 (hinv.inW _ hfc).2 hm
  have hadjm : adj (x, y) m := adj_of_mem_moves P x y m hm
  unfold processMove
  by_cases h0 : st.grid m = 0
  · -- interior absorption branch
    have hg0m : g0 m = 0 := by
      rcases hinv.wd m with h | ⟨hgi, _⟩
      · rw [← h, h0]
      · exact absurd (hgi.symm.trans h0) ctx.gi_ne_zero
    rw [if_pos h0]
    dsimp only
    refine ⟨⟨?_, ?_, ?_, ?_, ?_, ?_, ?_⟩, ?_, ?_⟩
    · intro c
      by_cases hc : c = m
      · subst hc; rw [setPix_same]; exact Or.inr ⟨rfl, Or.inl hg0m⟩
      · rw [setPix_other _ _ _ _ hc]; exact hinv.wd c
    · intro c hc
      by_cases hcm : c = m
      · subst hcm; rw [setPix_same]
      · rw [setPix_other _ _ _ _ hcm]
        rcases List.mem_append.mp hc with h | h
        · exact hinv.mem_gi c h
        · simp only [List.mem_singleton] at h; exact absurd h hcm
    · intro c hc
      by_cases hcm : c = m
      · subst hcm; exact Or.inl (List.mem_append.mpr (Or.inr (by simp)))
      · rw [setPix_other _ _ _ _ hcm] at hc
        rcases hinv.gi_mem c hc with h | h
        · exact Or.inl (List.mem_append.mpr (Or.inl h))
        · exact Or.inr h
    · intro c hc hz
      have hsub : ∀ d ∈ st.coordList, d ∈ st.coordList ++ [m] := fun d hd =>
        List.mem_append.mpr (Or.inl hd)
      rcases List.mem_append.mp hc with h | h
      · exact (hinv.conn c h hz).mono hsub
      · simp only [List.mem_singleton] at h; subst h
        exact .step ((hinv.conn _ hfc hfz).mono hsub) hadjm hz
          (List.mem_append.mpr (Or.inr (by simp)))
    · intro c hc hb
      rcases List.mem_append.mp hc with h | h
      · obtain ⟨d, hd, hdz, hda⟩ := hinv.bnd c h hb
        exact ⟨d, List.mem_append.mpr (Or.inl hd), hdz, hda⟩
      · simp only [List.mem_singleton] at h; subst h
        exact absurd hb (by rw [hg0m]; decide)
    · intro c hc
      rcases List.mem_append.mp hc with h | h
      · exact hinv.classify c h
      · simp only [List.mem_singleton] at h; subst h; exact Or.inl hg0m
    · intro c hc
      rcases List.mem_append.mp hc with h | h
      · exact hinv.inW c h
      · simp only [List.mem_singleton] at h; subst h; exact hmw
    · intro c hc
      rcases List.mem_append.mp hc with h | h
      · obtain ⟨h1, h2⟩ := hnew c h
        exact ⟨List.mem_append.mpr (Or.inl h1), h2⟩
      · simp only [List.mem_singleton] at h; subst h
        exact ⟨List.mem_append.mpr (Or.inr (by simp)), hg0m⟩
    · intro c hc; exact List.mem_append.mpr (Or.inl hc)
  · by_cases h1 : st.grid m = -1 ∧ (m.1 > x ∨ m.2 > y)
    · -- boundary absorption branch
      have hg0m : g0 m = -1 := by
        rcases hinv.wd m with h | ⟨hgi, _⟩
        · rw [← h, h1.1]
        · exact absurd (hgi.symm.trans h1.1) ctx.gi_ne_negone
      rw [if_neg h0, if_pos h1]
      dsimp only
      refine ⟨⟨?_, ?_, ?_, ?_, ?_, ?_, ?_⟩, ?_, ?_⟩
      · intro c
        by_cases hc : c = m
        · subst hc; rw [setPix_same]; exact Or.inr ⟨rfl, Or.inr hg0m⟩
        · rw [setPix_other _ _ _ _ hc]; exact hinv.wd c
      · intro c hc
        by_cases hcm : c = m
        · subst hcm; rw [setPix_same]
        · rw [setPix_other _ _ _ _ hcm]
          rcases List.mem_append.mp hc with h | h
          · exact hinv.mem_gi c h
          · simp only [List.mem_singleton] at h; exact absurd h hcm
      · intro c hc
        by_cases hcm : c = m
        · subst hcm; exact Or.inl (List.mem_append.mpr (Or.inr (by simp)))
        · rw [setPix_other _ _ _ _ hcm] at hc
          rcases hinv.gi_mem c hc with h | h
          · exact Or.inl (List.mem_append.mpr (Or.inl h))
          · exact Or.inr h
      · intro c hc hz
        have hsub : ∀ d ∈ st.coordList, d ∈ st.coordList ++ [m] := fun d hd =>
          List.mem_append.mpr (Or.inl hd)
        rcases List.mem_append.mp hc with h | h
        · exact (hinv.conn c h hz).mono hsub
        · simp only [List.mem_singleton] at h; subst h
          exact absurd hz (by rw [hg0m]; decide)
      · intro c hc hb
        rcases List.mem_append.mp hc with h | h
        · obtain ⟨d, hd, hdz, hda⟩ := hinv.bnd c h hb
          exact ⟨d, List.mem_append.mpr (Or.inl hd), hdz, hda⟩
        · simp only [List.mem_singleton] at h; subst h
          exact ⟨(x, y), List.mem_append.mpr (Or.inl hfc), hfz, hadjm⟩
      · intro c hc
        rcases List.mem_append.mp hc with h | h
        · exact hinv.classify c h
        · simp only [List.mem_singleton] at h; subst h; exact Or.inr hg0m
      · intro c hc
        rcases List.mem_append.mp hc with h | h
        · exact hinv.inW c h
        · simp only [List.mem_singleton] at h; subst h; exact hmw
      · intro c hc
        obtain ⟨hc1, hc2⟩ := hnew c hc
        exact ⟨List.mem_append.mpr (Or.inl hc1), hc2⟩
      · intro c hc; exact List.mem_append.mpr (Or.inl hc)
    · -- no absorption
      rw [if_neg h0, if_neg h1]
      exact ⟨hinv, hnew, fun c hc => hc⟩

/-- Folding `processMove` over any sublist of the move list preserves the
invariant. -/
theorem processMoves_inv {P : FillParams} {g0 : LabelGrid} {gi : Int} {seed : Coord}
    (ctx : FillCtx P g0 gi seed) {x y : Nat} (ms : List Coord) (st : FillSt)
    (hms : ∀ m ∈ ms, m ∈ moves P x y)
    (hfc : (x, y) ∈ st.coordList) (hfz : g0 (x, y) = 0)
    (hinv : FillInv P g0 gi seed st.grid st.coordList)
    (hnew : ∀ c ∈ st.newedge, c ∈ st.coordList ∧ g0 c = 0) :
    FillInv P g0 gi seed (processMoves P gi x y st ms).grid
        (processMoves P gi x y st ms).coordList ∧
    (∀ c ∈ (processMoves P gi x y st ms).newedge,
        c ∈ (processMoves P gi x y st ms).coordList ∧ g0 c = 0) ∧
    (∀ c ∈ st.coordList, c ∈ (processMoves P gi x y st ms).coordList) := by
  induction ms generalizing st with
  | nil => exact ⟨hinv, hnew, fun c hc => hc⟩
  | cons m ms ih =>
    obtain ⟨hinv', hnew', hmono'⟩ :=
      processMove_inv ctx (hms m (by simp)) hfc hfz hinv hnew
    obtain ⟨hinv'', hnew'', hmono''⟩ :=
      ih (processMove P gi x y st m) (fun d hd => hms d (by simp [hd]))
        (hmono' _ hfc) hinv' hnew'
    exact ⟨hinv'', hnew'', fun c hc => hmono'' _ (hmono' _ hc)⟩

/-- Processing a whole frontier (whose pixels are absorbed interior
pixels) preserves the invariant. -/
theorem processEdge_inv {P : FillParams} {g0 : LabelGrid} {gi : Int} {seed : Coord}
    (ctx : FillCtx P g0 gi seed) (edge : List Coord) (st : FillSt)
    (hedge : ∀ c ∈ edge, c ∈ st.coordList ∧ g0 c = 0)
    (hinv : FillInv P g0 gi seed st.grid st.coordList)
    (hnew : ∀ c ∈ st.newedge, c ∈ st.coordList ∧ g0 c = 0) :
    FillInv P g0 gi seed (processEdge P gi st edge).grid
        (processEdge P gi st edge).coordList ∧
    (∀ c ∈ (processEdge P gi st edge).newedge,
        c ∈ (processEdge P gi st edge).coordList ∧ g0 c = 0) ∧
    (∀ c ∈ st.coordList, c ∈ (processEdge P gi st edge).coordList) := by
  induction edge generalizing st with
  | nil => exact ⟨hinv, hnew, fun c hc => hc⟩
  | cons c rest ih =>
    obtain ⟨x, y⟩ := c
    obtain ⟨hfc, hfz⟩ := hedge (x, y) (by simp)
    obtain ⟨hinv', hnew', hmono'⟩ :=
      processMoves_inv ctx (moves P x y) st (fun m hm => hm) hfc hfz hinv hnew
    obtain ⟨hinv'', hnew'', hmono''⟩ :=
      ih (processMoves P gi x y st (moves P x y))
        (fun d hd => ⟨hmono' _ (hedge d (by simp [hd])).1, (hedge d (by simp [hd])).2⟩)
        hinv' hnew'
    exact ⟨hinv'', hnew'', fun d hd => hmono'' _ (hmono' _ hd)⟩

/-- The frontier loop of `floodFill` preserves the invariant (for any
fuel) and only grows the claimed list. -/
theorem fillLoop_inv {P : FillParams} {g0 : LabelGrid} {gi : Int} {seed : Coord}
    (ctx : FillCtx P g0 gi seed) (fuel : Nat)
    (grid : LabelGrid) (coords : List Coord) (shears : List Int) (edge : List Coord)
    (hedge : ∀ c ∈ edge, c ∈ coords ∧ g0 c = 0)
    (hinv : FillInv P g0 gi seed grid coords) :
    FillInv P g0 gi seed (fillLoop P gi fuel grid coords shears edge).1
        (fillLoop P gi fuel grid coords shears edge).2.1 ∧
    (∀ c ∈ coords, c ∈ (fillLoop P gi fuel grid coords shears edge).2.1) := by
  induction fuel generalizing grid coords shears edge with
  | zero => exact ⟨hinv, fun c hc => hc⟩
  | succ fuel ih =>
    obtain ⟨hinv', hnew', hmono'⟩ :=
      processEdge_inv ctx edge ⟨grid, coords, shears, []⟩ hedge hinv (by simp)
    unfold fillLoop
    by_cases hne : (processEdge P gi ⟨grid, coords, shears, []⟩ edge).newedge = []
    · rw [if_pos hne]
      exact ⟨hinv', hmono'⟩
    · rw [if_neg hne]
      obtain ⟨hinv'', hmono''⟩ := ih _ _ _ _ hnew' hinv'
      exact ⟨hinv'', fun c hc => hmono'' _ (hmono' _ hc)⟩

/-- `floodFill` establishes the fill invariant between its starting grid
and its result, and the seed is among the claimed pixels. -/
theorem floodFill_inv {P : FillParams} {g0 : LabelGrid} {gi : Int} {x y : Nat}
    (ctx : FillCtx P g0 gi (x, y)) :
    FillInv P g0 gi (x, y) (floodFill P gi x y g0).1
        (floodFill P gi x y g0).2.coordList ∧
    (x, y) ∈ (floodFill P gi x y g0).2.coordList := by
  have hinv0 : FillInv P g0 gi (x, y) (setPix g0 (x, y) gi) [(x, y)] := by
    refine ⟨?_, ?_, ?_, ?_, ?_, ?_, ?_⟩
    · intro c
      by_cases hc : c = (x, y)
      · subst hc; rw [setPix_same]; exact Or.inr ⟨rfl, Or.inl ctx.seed_zero⟩
      · rw [setPix_other _ _ _ _ hc]; exact Or.inl rfl
    · intro c hc
      simp only [List.mem_singleton] at hc; subst hc; rw [setPix_same]
    · intro c hc
      by_cases hcm : c = (x, y)
      · subst hcm; exact Or.inl (by simp)
      · rw [setPix_other _ _ _ _ hcm] at hc; exact Or.inr hc
    · intro c hc _
      simp only [List.mem_singleton] at hc; subst hc; exact .refl _
    · intro c hc hb
      simp only [List.mem_singleton] at hc; subst hc
      exact absurd hb (by rw [ctx.seed_zero]; decide)
    · intro c hc
      simp only [List.mem_singleton] at hc; subst hc; exact Or.inl ctx.seed_zero
    · intro c hc
      simp only [List.mem_singleton] at hc; subst hc; exact ctx.seed_window
  have hedge0 : ∀ c ∈ [(x, y)], c ∈ [(x, y)] ∧ g0 c = 0 := by
    intro c hc
    simp only [List.mem_singleton] at hc; subst hc
    exact ⟨by simp, ctx.seed_zero⟩
  obtain ⟨hinv, hmono⟩ :=
    fillLoop_inv ctx (P.xDim * P.yDim + 1) (setPix g0 (x, y) gi) [(x, y)]
      [P.maxShear (y + P.cropY) (x + P.cropX)] [(x, y)] hedge0 hinv0
  exact ⟨hinv, hmono _ (by simp)⟩

/-! Helper lemmas for the segmentation loop. -/

/-- The purge pass sets exactly the claimed pixels to `-2`. -/
theorem purgeGrain_apply (l : List Coord) (g : LabelGrid) (c : Coord) :
    purgeGrain g l c = if c ∈ l then -2 else g c := by
  induction l generalizing g with
  | nil => simp [purgeGrain]
  | cons d rest ih =>
    simp only [purgeGrain]
    rw [ih]
    by_cases hc : c ∈ rest
    · simp [hc]
    · by_cases hcd : c = d
      · subst hcd; simp [hc, setPix_same]
      · simp [hc, hcd, setPix_other _ _ _ _ hcd]

theorem mem_rowMajor (P : FillParams) (x y : Nat) :
    (x, y) ∈ rowMajor P ↔ x < P.xDim ∧ y < P.yDim := by
  simp only [rowMajor, List.mem_flatMap, List.mem_map, List.mem_range]
  constructor
  · rintro ⟨a, ha, b, hb, heq⟩
    injection heq with h1 h2; subst h1; subst h2
    exact ⟨hb, ha⟩
  · rintro ⟨hx, hy⟩
    exact ⟨y, hy, x, hx, rfl⟩

theorem rowMajor_length (P : FillParams) :
    (rowMajor P).length = P.yDim * P.xDim := by
  simp [rowMajor, List.length_flatMap, Function.comp_def, List.map_const',
    List.sum_replicate]

theorem firstZeroAux_some (g : LabelGrid) (l : List Coord) (c : Coord)
    (h : firstZeroAux g l = some c) : g c = 0 ∧ c ∈ l := by
  induction l with
  | nil => simp [firstZeroAux] at h
  | cons d rest ih =>
    simp only [firstZeroAux] at h
    by_cases hd : g d = 0
    · rw [if_pos hd] at h
      injection h with h; subst h
      exact ⟨hd, by simp⟩
    · rw [if_neg hd] at h
      obtain ⟨h1, h2⟩ := ih h
      exact ⟨h1, by simp [h2]⟩

theorem firstZeroAux_none (g : LabelGrid) (l : List Coord)
    (h : firstZeroAux g l = none) : ∀ c ∈ l, g c ≠ 0 := by
  induction l with
  | nil => intro c hc; simp at hc
  | cons d rest ih =>
    simp only [firstZeroAux] at h
    by_cases hd : g d = 0
    · rw [if_pos hd] at h; cases h
    · rw [if_neg hd] at h
      intro c hc
      rcases List.mem_cons.mp hc with h1 | h1
      · subst h1; exact hd
      · exact ih h c h1

/-- A found seed is a `0`-labelled in-window pixel. -/
theorem firstZero_some (P : FillParams) (g : LabelGrid) (x y : Nat)
    (h : firstZero P g = some (x, y)) :
    g (x, y) = 0 ∧ x < P.xDim ∧ y < P.yDim := by
  obtain ⟨h1, h2⟩ := firstZeroAux_some g (rowMajor P) (x, y) h
  exact ⟨h1, (mem_rowMajor P x y).mp h2⟩

/-- If the scan finds nothing, no in-window pixel is labelled `0`. -/
theorem firstZero_none (P : FillParams) (g : LabelGrid)
    (h : firstZero P g = none) :
    ∀ x y, x < P.xDim → y < P.yDim → g (x, y) ≠ 0 :=
  fun x y hx hy =>
    firstZeroAux_none g (rowMajor P) h (x, y) ((mem_rowMajor P x y).mpr ⟨hx, hy⟩)

theorem filter_length_le_of_imp (l : List Coord) (p q : Coord → Bool)
    (h : ∀ c ∈ l, q c = true → p c = true) :
    (l.filter q).length ≤ (l.filter p).length := by
  induction l with
  | nil => exact Nat.le_refl _
  | cons d rest ih =>
    have ih' := ih fun c hc => h c (by simp [hc])
    simp only [List.filter]
    cases hq : q d with
    | true =>
      rw [h d (by simp) hq]
      simpa using Nat.succ_le_succ ih'
    | false =>
      cases hp : p d with
      | true => simpa using Nat.le_succ_of_le ih'
      | false => exact ih'

theorem filter_length_lt_of_imp (l : List Coord) (p q : Coord → Bool)
    (h : ∀ c ∈ l, q c = true → p c = true)
    (c0 : Coord) (hc0 : c0 ∈ l) (hp : p c0 = true) (hq : q c0 = false) :
    (l.filter q).length < (l.filter p).length := by
  induction l with
  | nil => cases hc0
  | cons d rest ih =>
    have hle := filter_length_le_of_imp rest p q fun c hc => h c (by simp [hc])
    simp only [List.filter]
    by_cases hd : c0 = d
    · subst hd
      rw [hp, hq]
      simpa using Nat.lt_succ_of_le hle
    · have hc0' : c0 ∈ rest := by
        rcases List.mem_cons.mp hc0 with h1 | h1
        · exact absurd h1 hd
        · exact h1
      have ih' := ih (fun c hc => h c (by simp [hc])) hc0'
      cases hq' : q d with
      | true =>
        rw [h d (by simp) hq']
        simpa using Nat.succ_lt_succ ih'
      | false =>
        cases hp' : p d with
        | true => simpa using Nat.lt_succ_of_lt ih'
        | false => exact ih'

/-- Monotone pixelwise zero-sets give monotone zero counts. -/
theorem countZeros_le (P : FillParams) (g g' : LabelGrid)
    (hmono : ∀ c, g' c = 0 → g c = 0) :
    countZeros P g' ≤ countZeros P g := by
  refine filter_length_le_of_imp _ _ _ fun c _ hq => ?_
  simp only [beq_iff_eq] at hq ⊢
  exact hmono c hq

/-- A pixelwise-shrinking zero-set that loses an in-window pixel gives a
strictly smaller zero count. -/
theorem countZeros_lt (P : FillParams) (g g' : LabelGrid)
    (hmono : ∀ c, g' c = 0 → g c = 0)
    (c0 : Coord) (hc0 : c0 ∈ rowMajor P) (hz : g c0 = 0) (hnz : g' c0 ≠ 0) :
    countZeros P g' < countZeros P g := by
  refine filter_length_lt_of_imp _ _ _ (fun c _ hq => ?_) c0 hc0 ?_ ?_
  · simp only [beq_iff_eq] at hq ⊢
    exact hmono c hq
  · simp only [beq_iff_eq]; exact hz
  · simp only [beq_eq_false_iff_ne, ne_eq]; exact hnz

/-- Invariant of the `findGrains` segmentation loop: the grain counter
stays one ahead of the registry; every pixel is `-2`, `-1`, `0` or a label
of a registered grain; the pixels of registered grain `i` (0-based) carry
label `i + 1`; registered grains are nonempty, in-window and at least
`minGrainSize` large; and `-2` pixels are exactly claims of recorded
undersized grains. -/
structure SegInv (P : FillParams) (minGrainSize : Nat) (st : SegSt) : Prop where
  idx : st.grainIndex = st.grainList.length + 1
  vals : ∀ c, st.grid c = -2 ∨ st.grid c = -1 ∨ st.grid c = 0 ∨
      (1 ≤ st.grid c ∧ st.grid c ≤ (st.grainList.length : Int))
  label : ∀ (i : Nat) (h : i < st.grainList.length),
      ∀ c ∈ (st.grainList[i]).coordList, st.grid c = (i : Int) + 1
  grainNonempty : ∀ (i : Nat) (h : i < st.grainList.length),
      (st.grainList[i]).coordList ≠ [] ∧
      ∀ c ∈ (st.grainList[i]).coordList, c.1 < P.xDim ∧ c.2 < P.yDim
  size : ∀ (i : Nat) (h : i < st.grainList.length),
      minGrainSize ≤ (st.grainList[i]).coordList.length
  purged : ∀ c, st.grid c = -2 → ∃ g ∈ st.discarded, c ∈ g.coordList
  small : ∀ g ∈ st.discarded, g.coordList.length < minGrainSize

/-- One iteration of the segmentation loop preserves the invariant and
strictly decreases the number of `0`-labelled in-window pixels. -/
theorem segStep_inv (P : FillParams) (minG : Nat) (st : SegSt) (x y : Nat)
    (hx2 : 2 ≤ P.xDim) (hy2 : 2 ≤ P.yDim)
    (hseed : st.grid (x, y) = 0) (hxw : x < P.xDim) (hyw : y < P.yDim)
    (hinv : SegInv P minG st) :
    SegInv P minG (segStep P minG st x y) ∧
    countZeros P (segStep P minG st x y).grid < countZeros P st.grid := by
  have hgi : (st.grainIndex : Int) = (st.grainList.length : Int) + 1 := by
    rw [hinv.idx]; push_cast; ring
  have hgi0 : (st.grainIndex : Int) ≠ 0 := by omega
  have hgi1 : (st.grainIndex : Int) ≠ -1 := by omega
  have hgi2 : (st.grainIndex : Int) ≠ -2 := by omega
  have hnopre : ∀ c, st.grid c ≠ (st.grainIndex : Int) := by
    intro c
    rcases hinv.vals c with h | h | h | ⟨h1, h2⟩ <;> omega
  have ctx : FillCtx P st.grid (st.grainIndex : Int) (x, y) :=
    ⟨hgi0, hgi1, hseed, ⟨hxw, hyw⟩, hx2, hy2⟩
  obtain ⟨finv, hseedmem⟩ := floodFill_inv ctx
  set F := floodFill P (st.grainIndex : Int) x y st.grid with hF
  have hgimem : ∀ c, F.1 c = (st.grainIndex : Int) → c ∈ F.2.coordList := by
    intro c h
    rcases finv.gi_mem c h with h1 | h1
    · exact h1
    · exact absurd h1 (hnopre c)
  have hpos : ∀ c, 1 ≤ st.grid c → c ∉ F.2.coordList ∧ F.1 c = st.grid c := by
    intro c h1
    constructor
    · intro hc
      rcases finv.classify c hc with h | h <;> omega
    · rcases finv.wd c with h | ⟨_, h | h⟩
      · exact h
      · omega
      · omega
  have hmono : ∀ c, F.1 c = 0 → st.grid c = 0 := by
    intro c h
    rcases finv.wd c with h1 | ⟨h1, _⟩
    · rw [← h1, h]
    · exact absurd (h1.symm.trans h) hgi0
  simp only [segStep, ← hF]
  by_cases hsz : F.2.coordList.length < minG
  · rw [if_pos hsz]
    refine ⟨⟨hinv.idx, ?_, ?_, hinv.grainNonempty, hinv.size, ?_, ?_⟩, ?_⟩
    · intro c
      dsimp only
      rw [purgeGrain_apply]
      by_cases hc : c ∈ F.2.coordList
      · rw [if_pos hc]; exact Or.inl rfl
      · rw [if_neg hc]
        rcases finv.wd c with h | ⟨h, _⟩
        · rw [h]; exact hinv.vals c
        · exact absurd (hgimem c h) hc
    · intro i h c hc
      dsimp only at h hc ⊢
      have hlab := hinv.label i h c hc
      have h1 : 1 ≤ st.grid c := by omega
      obtain ⟨hnotin, heq⟩ := hpos c h1
      rw [purgeGrain_apply, if_neg hnotin, heq, hlab]
    · intro c hc
      dsimp only at hc ⊢
      rw [purgeGrain_apply] at hc
      by_cases hmem : c ∈ F.2.coordList
      · exact ⟨F.2, by simp, hmem⟩
      · rw [if_neg hmem] at hc
        rcases finv.wd c with h | ⟨h, _⟩
        · obtain ⟨g, hg1, hg2⟩ := hinv.purged c (h ▸ hc)
          exact ⟨g, by simp [hg1], hg2⟩
        · exact absurd (h.symm.trans hc) hgi2
    · intro g hg
      dsimp only at hg
      rcases List.mem_append.mp hg with h | h
      · exact hinv.small g h
      · simp only [List.mem_singleton] at h; subst h; exact hsz
    · dsimp only
      refine countZeros_lt P st.grid _ ?_ (x, y)
        ((mem_rowMajor P x y).mpr ⟨hxw, hyw⟩) hseed ?_
      · intro c hc
        rw [purgeGrain_apply] at hc
        by_cases hmem : c ∈ F.2.coordList
        · rw [if_pos hmem] at hc; cases hc
        · rw [if_neg hmem] at hc; exact hmono c hc
      · rw [purgeGrain_apply, if_pos hseedmem]; decide
  · rw [if_neg hsz]
    have hlen : (st.grainList ++ [F.2]).length = st.grainList.length + 1 := by
      simp
    refine ⟨⟨?_, ?_, ?_, ?_, ?_, ?_, ?_⟩, ?_⟩
    · simp [hinv.idx]
    · intro c
      dsimp only
      rcases finv.wd c with h | ⟨h, _⟩
      · rw [h]
        rcases hinv.vals c with h1 | h1 | h1 | ⟨h1, h2⟩
        · exact Or.inl h1
        · exact Or.inr (Or.inl h1)
        · exact Or.inr (Or.inr (Or.inl h1))
        · refine Or.inr (Or.inr (Or.inr ⟨h1, ?_⟩))
          rw [hlen]; push_cast; omega
      · refine Or.inr (Or.inr (Or.inr ⟨?_, ?_⟩))
        · rw [h]; omega
        · rw [h, hlen]; push_cast; omega
    · intro i h c hc
      dsimp only at h hc ⊢
      rw [hlen] at h
      by_cases hi : i < st.grainList.length
      · rw [List.getElem_append_left hi] at hc
        have hlab := hinv.label i hi c hc
        obtain ⟨_, heq⟩ := hpos c (by omega)
        rw [heq, hlab]
      · have hieq : i = st.grainList.length := by omega
        subst hieq
        simp only [List.getElem_concat_length] at hc
        rw [finv.mem_gi c hc, hgi]
    · intro i h
      dsimp only at h ⊢
      rw [hlen] at h
      by_cases hi : i < st.grainList.length
      · rw [List.getElem_append_left hi]
        exact hinv.grainNonempty i hi
      · have hieq : i = st.grainList.length := by omega
        subst hieq
        simp only [List.getElem_concat_length]
        exact ⟨List.ne_nil_of_mem hseedmem, finv.inW⟩
    · intro i h
      dsimp only at h ⊢
      rw [hlen] at h
      by_cases hi : i < st.grainList.length
      · rw [List.getElem_append_left hi]
        exact hinv.size i hi
      · have hieq : i = st.grainList.length := by omega
        subst hieq
        simp only [List.getElem_concat_length]
        omega
    · intro c hc
      dsimp only at hc ⊢
      rcases finv.wd c with h | ⟨h, _⟩
      · exact hinv.purged c (h ▸ hc)
      · exact absurd (h.symm.trans hc) hgi2
    · exact hinv.small
    · dsimp only
      refine countZeros_lt P st.grid _ hmono (x, y)
        ((mem_rowMajor P x y).mpr ⟨hxw, hyw⟩) hseed ?_
      rw [finv.mem_gi (x, y) hseedmem]
      exact hgi0

theorem firstZeroAux_eq_none (g : LabelGrid) (l : List Coord)
    (h : ∀ c ∈ l, g c ≠ 0) : firstZeroAux g l = none := by
  induction l with
  | nil => rfl
  | cons d rest ih =>
    simp only [firstZeroAux]
    rw [if_neg (h d (by simp))]
    exact ih fun c hc => h c (by simp [hc])

/-- The invariant holds of the initial segmentation state. -/
theorem segInv_init (P : FillParams) (minGrainSize : Nat) (mask : Coord → Bool) :
    SegInv P minGrainSize ⟨initGrid mask, [], 1, []⟩ := by
  refine ⟨rfl, ?_, ?_, ?_, ?_, ?_, ?_⟩
  · intro c
    by_cases h : mask c <;> simp [initGrid, h]
  · intro i h; exact absurd h (Nat.not_lt_zero i)
  · intro i h; exact absurd h (Nat.not_lt_zero i)
  · intro i h; exact absurd h (Nat.not_lt_zero i)
  · intro c hc
    by_cases h : mask c <;> simp [initGrid, h] at hc
  · intro g hg; cases hg

/-- The segmentation loop preserves the invariant for any fuel, and with
fuel exceeding the current number of `0`-labelled in-window pixels it
terminates properly: no in-window pixel is left labelled `0`. -/
theorem segLoop_inv (P : FillParams) (minG : Nat) (fuel : Nat) (st : SegSt)
    (hx2 : 2 ≤ P.xDim) (hy2 : 2 ≤ P.yDim) (hinv : SegInv P minG st) :
    SegInv P minG (segLoop P minG fuel st) ∧
    (countZeros P st.grid < fuel →
      ∀ x y, x < P.xDim → y < P.yDim → (segLoop P minG fuel st).grid (x, y) ≠ 0) := by
  induction fuel generalizing st with
  | zero => exact ⟨hinv, fun h => absurd h (Nat.not_lt_zero _)⟩
  | succ fuel ih =>
    unfold segLoop
    cases hfz : firstZero P st.grid with
    | none => exact ⟨hinv, fun _ => firstZero_none P st.grid hfz⟩
    | some c =>
      obtain ⟨cx, cy⟩ := c
      obtain ⟨hz, hxw, hyw⟩ := firstZero_some P st.grid cx cy hfz
      obtain ⟨hinv', hdec⟩ := segStep_inv P minG st cx cy hx2 hy2 hz hxw hyw hinv
      obtain ⟨hfinal, hnz⟩ := ih _ hinv'
      exact ⟨hfinal, fun hcount => hnz (by omega)⟩

/-- `findGrains` establishes the segmentation invariant and leaves no
in-window pixel labelled `0`: its fuel `xDim * yDim + 1` is sufficient
because each pass strictly decreases the `0`-pixel count. -/
theorem findGrains_inv (P : FillParams) (minG : Nat) (mask : Coord → Bool)
    (hx2 : 2 ≤ P.xDim) (hy2 : 2 ≤ P.yDim) :
    SegInv P minG (findGrains P minG mask) ∧
    (∀ x y, x < P.xDim → y < P.yDim → (findGrains P minG mask).grid (x, y) ≠ 0) := by
  have hinv0 : SegInv P minG ⟨initGrid mask, [], 1, []⟩ := segInv_init P minG mask
  have hcount : countZeros P (initGrid mask) < P.xDim * P.yDim + 1 := by
    have h1 : countZeros P (initGrid mask) ≤ (rowMajor P).length :=
      List.length_filter_le _ _
    rw [rowMajor_length] at h1
    have h2 := Nat.mul_comm P.yDim P.xDim
    omega
  obtain ⟨hinv, hnz⟩ :=
    segLoop_inv P minG (P.xDim * P.yDim + 1) ⟨initGrid mask, [], 1, []⟩ hx2 hy2 hinv0
  exact ⟨hinv, hnz hcount⟩

/-! Concrete probe inputs used by the evaluation theorems below. -/

/-- A 2×2 boundary-free map whose scalar field `10*row + col`
distinguishes every pixel; crop offsets zero. -/
def shearProbeParams : FillParams := ⟨2, 2, fun r c => 10 * r + c, 0, 0⟩

/-- Segmentation of the 2×2 boundary-free map with `minGrainSize = 1`. -/
def shearProbeSeg : SegSt := findGrains shearProbeParams 1 (fun _ => false)

/-- The per-pixel samples the spec expects for a grain: the scalar field
evaluated at each claimed coordinate itself, corrected by the crop
offsets. -/
def expectedShears (P : FillParams) (g : Grain) : List Int :=
  g.coordList.map fun c => P.maxShear (c.2 + P.cropY) (c.1 + P.cropX)

/-- A concrete 3×3 grid for the crop theorems. -/
def cropProbe : List (List Int) := [[1, 2, 3], [4, 5, 6], [7, 8, 9]]

/-- Segmentation of the 2×2 boundary-free map with `minGrainSize = 50`:
the single 4-pixel grain is undersized and gets purged. -/
def shearProbeSegBig : SegSt := findGrains shearProbeParams 50 (fun _ => false)

/-- An 11×5 map: two 5×5 interior blocks separated by the single-pixel
boundary column `x = 5` (the spec's directionality scenario). -/
def twoBlockParams : FillParams := ⟨11, 5, fun _ _ => 0, 0, 0⟩

/-- Boundary mask of the two-block scenario: column `x = 5`. -/
def twoBlockMask : Coord → Bool := fun c => c.1 == 5

/-- Segmentation of the two-block scenario with `minGrainSize = 10`. -/
def twoBlockSeg : SegSt := findGrains twoBlockParams 10 twoBlockMask

/-- C1: the code contradicts the claim.  On the 2×2 boundary-free map the
single grain claims, in order, `(0,0), (1,0), (0,1), (1,1)`, but the
recorded samples are `0, 0, 0, 1`: every pixel absorbed from frontier
pixel `(x, y)` is paired with the field value at `(x, y)` (the seed's
value `0` for the first three, the value at `(1,0)` for the last), not
with the value at its own coordinates, which would be `0, 1, 10, 11`. -/
theorem c1_shear_sampled_at_frontier_not_at_absorbed_pixel :
    shearProbeSeg.grainList.map Grain.coordList = [[(0, 0), (1, 0), (0, 1), (1, 1)]] ∧
    shearProbeSeg.grainList.map Grain.maxShearList = [[0, 0, 0, 1]] ∧
    shearProbeSeg.grainList.map (expectedShears shearProbeParams) = [[0, 1, 10, 11]] ∧
    shearProbeSeg.grainList.map Grain.maxShearList ≠
      shearProbeSeg.grainList.map (expectedShears shearProbeParams) := by
  decide

/-- The mode of a nonempty all-zero list is `0`. -/
theorem scipyMode_of_all_zero (l : List Int) (hne : l ≠ []) (hz : ∀ v ∈ l, v = 0) :
    scipyMode l = some 0 := by
  have aux : ∀ l' : List Int, (∀ v ∈ l', v = 0) →
      List.foldl
        (fun acc v =>
          match acc with
          | none => some v
          | some b =>
            if l.count v > l.count b ∨ (l.count v = l.count b ∧ v < b) then some v
            else some b)
        (some 0) l' = some 0 := by
    intro l' hz'
    induction l' with
    | nil => rfl
    | cons v rest ih =>
      have hv : v = 0 := hz' v (by simp)
      subst hv
      simp only [List.foldl_cons, ite_self]
      exact ih fun v hv => hz' v (by simp [hv])
  cases l with
  | nil => exact absurd rfl hne
  | cons v rest =>
    have hv : v = 0 := hz v (by simp)
    subst hv
    simpa [scipyMode] using aux rest fun v hv => hz v (by simp [hv])

/-- C2: the claim fails on the code.  A deformed grain whose warped
footprint covers only reference background (label `0`) is *silently*
recorded with reference index `-1` (`mode([0])[0] - 1`), exactly the
default the claim rules out; and a grain whose footprint is empty makes
`modeId[0]` raise, aborting the pass instead of continuing with the
remaining grains. -/
theorem c2_background_footprint_recorded_as_minus_one :
    resolveGrainIds 1 [1] [0] = .ok [-1] ∧
    resolveGrainIds 2 [1, 1] [5, 5] = .error "IndexError: mode of empty footprint" :=
  ⟨rfl, rfl⟩

/-- C2 (amended): for a single-grain resolution, a footprint covering only
reference label `0` yields the silently recorded entry `-1`, and an empty
footprint makes the whole resolution fail with the `IndexError` from
`mode(...)[0]`. -/
theorem c2_amended_silent_minus_one_or_abort (warped refGrains : List Int)
    (h0 : ∀ v ∈ footprintVals warped refGrains 1, v = 0) :
    (footprintVals warped refGrains 1 = [] →
      resolveGrainIds 1 warped refGrains = .error "IndexError: mode of empty footprint") ∧
    (footprintVals warped refGrains 1 ≠ [] →
      resolveGrainIds 1 warped refGrains = .ok [-1]) := by
  have hrange : List.range 1 = [0] := rfl
  have hlbl : ((0 : Nat) : Int) + 1 = 1 := rfl
  constructor
  · intro hfp
    simp [resolveGrainIds, resolveLoop, hrange, hlbl, hfp, scipyMode]
  · intro hfp
    have hmode := scipyMode_of_all_zero _ hfp h0
    simp [resolveGrainIds, resolveLoop, hrange, hlbl, hmode]

/-- Witness for `c2_amended_silent_minus_one_or_abort` at
`warped = [1]`, `refGrains = [0]`. -/
theorem c2_amended_silent_minus_one_or_abort_witness :
    (∀ v ∈ footprintVals [1] [0] 1, v = 0) ∧
    footprintVals [1] [0] 1 ≠ [] ∧
    resolveGrainIds 1 [1] [0] = .ok [-1] :=
  ⟨by decide, by decide,
    (c2_amended_silent_minus_one_or_abort [1] [0] (by decide)).2 (by decide)⟩

/-- Two homologous point pairs — one fewer than the three the spec
demands — for the deformed map. -/
def twoPointsDic : List (Int × Int) := [(0, 0), (1, 0)]

/-- The matching two reference-map point pairs. -/
def twoPointsEbsd : List (Int × Int) := [(0, 0), (0, 1)]

/-- C8: the claim fails on the code.  Linking with two equal-length lists
of only 2 homologous point pairs — fewer than 3 — surfaces no
invalid-input error: the under-determined `estimate` runs, its failure
flag is computed as `false` and discarded, and the link completes
normally. -/
theorem c8_counterexample_two_point_pairs_raise_no_error :
    linkEbsdMap twoPointsDic twoPointsEbsd =
      .ok ⟨twoPointsDic, twoPointsEbsd, false⟩ ∧
    twoPointsDic.length < 3 :=
  ⟨rfl, by decide⟩

/-- C8 (amended): the estimate calls of `linkEbsdMap` and
`warpToDicFrame` surface the external estimator's exceptions for empty
or mismatched-length point lists, but perform no invalid-input
validation of their own: for equal-length nonempty lists — even with
fewer than 3 pairs — estimation proceeds and its success flag is
silently discarded. -/
theorem c8_amended_underdetermined_lists_silently_accepted
    (p q : List (Int × Int)) (link : EbsdLink) :
    (p = [] ∨ q = [] → ∃ e, linkEbsdMap p q = .error e) ∧
    (p.length ≠ q.length → ∃ e, linkEbsdMap p q = .error e) ∧
    (p ≠ [] → q ≠ [] → p.length = q.length →
      linkEbsdMap p q = .ok ⟨p, q, estimateSuccess p q⟩) ∧
    (link.homogPoints ≠ [] → link.ebsdHomogPoints ≠ [] →
      link.homogPoints.length = link.ebsdHomogPoints.length →
      warpToDicFrameEstimate link =
        .ok { link with
                estimateOk :=
                  estimateSuccess link.homogPoints link.ebsdHomogPoints }) := by
  refine ⟨?_, ?_, ?_, ?_⟩
  · intro h
    exact ⟨"ValueError: estimate cannot ingest a 1-D empty point array", by
      unfold linkEbsdMap
      rw [if_pos h]⟩
  · intro hne
    by_cases h0 : p = [] ∨ q = []
    · exact ⟨"ValueError: estimate cannot ingest a 1-D empty point array", by
        unfold linkEbsdMap
        rw [if_pos h0]⟩
    · exact ⟨"ValueError: point arrays could not be broadcast together", by
        unfold linkEbsdMap
        rw [if_neg h0, if_pos hne]⟩
  · intro hp hq heq
    unfold linkEbsdMap
    rw [if_neg (not_or.mpr ⟨hp, hq⟩), if_neg (not_not_intro heq)]
  · intro hp hq heq
    unfold warpToDicFrameEstimate
    rw [if_neg (not_or.mpr ⟨hp, hq⟩), if_neg (not_not_intro heq)]

/-- Witness for `c8_amended_underdetermined_lists_silently_accepted`: the
two-pair lists are nonempty, of equal length, and silently accepted. -/
theorem c8_amended_underdetermined_lists_silently_accepted_witness :
    twoPointsDic ≠ [] ∧ twoPointsEbsd ≠ [] ∧
    twoPointsDic.length = twoPointsEbsd.length ∧
    linkEbsdMap twoPointsDic twoPointsEbsd =
      .ok ⟨twoPointsDic, twoPointsEbsd, estimateSuccess twoPointsDic twoPointsEbsd⟩ :=
  ⟨by decide, by decide, by decide,
    (c8_amended_underdetermined_lists_silently_accepted twoPointsDic twoPointsEbsd
        ⟨[], [], false⟩).2.2.1 (by decide) (by decide) (by decide)⟩

/-- C9: the code contradicts the claim.  With margins `(1, 0, 1, 0)` —
all non-negative, none exceeding the 3×3 grid — `setCrop` records cropped
dimensions `2 × 2`, but `crop` returns the *empty* grid, because the
Python slice stop `-0 == 0` selects nothing whenever a right or bottom
margin is `0` (the source's own comment reads "need to fix this for no
crops"). -/
theorem c9_zero_margin_crop_empties_grid :
    setCrop 3 3 1 0 1 0 = (⟨1, 0, 1, 0⟩, 2, 2) ∧
    crop ⟨1, 0, 1, 0⟩ cropProbe = [] ∧
    (crop ⟨1, 0, 1, 0⟩ cropProbe).length ≠ cropProbe.length - 1 - 0 ∧
    crop ⟨1, 1, 1, 1⟩ cropProbe = [[5]] := by
  decide

/-- C3: a `-1`-labelled neighbour `(s, t)` of the frontier pixel `(x, y)`
is absorbed if and only if `s > x` or `t > y`; consequently, in the
two-block scenario (two 5×5 interior blocks separated by the single-pixel
boundary column `x = 5`, `minGrainSize = 10`) each boundary pixel of the
separating line ends up in exactly one of the two grains. -/
theorem c3_directional_boundary_absorption :
    (∀ (P : FillParams) (gi : Int) (x y : Nat) (st : FillSt) (s t : Nat),
      st.grid (s, t) = -1 →
      ((processMove P gi x y st (s, t)).coordList = st.coordList ++ [(s, t)] ↔
        (s > x ∨ t > y))) ∧
    (twoBlockSeg.grainList.length = 2 ∧
      ∀ y, y < 5 →
        twoBlockSeg.grainList.countP (fun g => decide ((5, y) ∈ g.coordList)) = 1) := by
  constructor
  · intro P gi x y st s t h
    unfold processMove
    rw [if_neg (by rw [h]; decide)]
    by_cases hcond : st.grid (s, t) = -1 ∧ ((s, t).1 > x ∨ (s, t).2 > y)
    · rw [if_pos hcond]
      exact ⟨fun _ => hcond.2, fun _ => rfl⟩
    · rw [if_neg hcond]
      constructor
      · intro heq
        exact absurd (congrArg List.length heq) (by simp)
      · intro hdir
        exact absurd ⟨h, hdir⟩ hcond
  · exact ⟨by decide, by decide⟩

/-- Witness for `c3_directional_boundary_absorption`: the boundary pixel
`(5, 2)` seen from frontier pixel `(4, 2)` satisfies the absorption rule,
and is claimed by exactly one grain of the two-block scenario. -/
theorem c3_directional_boundary_absorption_witness :
    initGrid twoBlockMask (5, 2) = -1 ∧
    ((processMove twoBlockParams 1 4 2 ⟨initGrid twoBlockMask, [], [], []⟩
        (5, 2)).coordList = [] ++ [(5, 2)] ↔ (5 > 4 ∨ 2 > 2)) ∧
    2 < 5 ∧
    twoBlockSeg.grainList.countP (fun g => decide ((5, 2) ∈ g.coordList)) = 1 :=
  ⟨by decide,
    c3_directional_boundary_absorption.1 twoBlockParams 1 4 2
      ⟨initGrid twoBlockMask, [], [], []⟩ 5 2 (by decide),
    by decide,
    c3_directional_boundary_absorption.2.2 2 (by decide)⟩

/-- C4: after segmentation every in-window pixel of the final label grid
is a positive grain label, `-1` or `-2`, and no pixel is left at `0`
(stated for maps of width and height at least 2; on thinner maps the
source itself crashes with an out-of-range read). -/
theorem c4_coverage (P : FillParams) (minGrainSize : Nat) (mask : Coord → Bool)
    (hx2 : 2 ≤ P.xDim) (hy2 : 2 ≤ P.yDim) (x y : Nat)
    (hx : x < P.xDim) (hy : y < P.yDim) :
    (1 ≤ (findGrains P minGrainSize mask).grid (x, y) ∨
     (findGrains P minGrainSize mask).grid (x, y) = -1 ∨
     (findGrains P minGrainSize mask).grid (x, y) = -2) ∧
    (findGrains P minGrainSize mask).grid (x, y) ≠ 0 := by
  obtain ⟨hinv, hnz⟩ := findGrains_inv P minGrainSize mask hx2 hy2
  have hnz' := hnz x y hx hy
  rcases hinv.vals (x, y) with h | h | h | ⟨h1, _⟩
  · exact ⟨Or.inr (Or.inr h), hnz'⟩
  · exact ⟨Or.inr (Or.inl h), hnz'⟩
  · exact absurd h hnz'
  · exact ⟨Or.inl h1, hnz'⟩

/-- Witness for `c4_coverage` on the 2×2 boundary-free probe map. -/
theorem c4_coverage_witness :
    2 ≤ shearProbeParams.xDim ∧ 2 ≤ shearProbeParams.yDim ∧
    0 < shearProbeParams.xDim ∧ 0 < shearProbeParams.yDim ∧
    ((1 ≤ shearProbeSeg.grid (0, 0) ∨ shearProbeSeg.grid (0, 0) = -1 ∨
        shearProbeSeg.grid (0, 0) = -2) ∧
      shearProbeSeg.grid (0, 0) ≠ 0) :=
  ⟨by decide, by decide, by decide, by decide,
    c4_coverage shearProbeParams 1 (fun _ => false) (by decide) (by decide) 0 0
      (by decide) (by decide)⟩

/-- C5: the positive labels of the final grid are exactly `1..N` for `N`
the registry size — every positive label is at most `N`, every `k` in
`1..N` occurs at some in-window pixel — label `k` marks exactly the
pixels claimed by registry entry `k - 1`, and a discarded undersized
grain is never added to the registry. -/
theorem c5_labels_contiguous_and_match_registry (P : FillParams)
    (minGrainSize : Nat) (mask : Coord → Bool)
    (hx2 : 2 ≤ P.xDim) (hy2 : 2 ≤ P.yDim) :
    (∀ x y, x < P.xDim → y < P.yDim →
      1 ≤ (findGrains P minGrainSize mask).grid (x, y) →
      (findGrains P minGrainSize mask).grid (x, y) ≤
        ((findGrains P minGrainSize mask).grainList.length : Int)) ∧
    (∀ k : Nat, 1 ≤ k → k ≤ (findGrains P minGrainSize mask).grainList.length →
      ∃ x y, x < P.xDim ∧ y < P.yDim ∧
        (findGrains P minGrainSize mask).grid (x, y) = (k : Int)) ∧
    (∀ (i : Nat) (h : i < (findGrains P minGrainSize mask).grainList.length),
      ∀ c ∈ ((findGrains P minGrainSize mask).grainList[i]).coordList,
        (findGrains P minGrainSize mask).grid c = (i : Int) + 1) ∧
    (∀ g ∈ (findGrains P minGrainSize mask).discarded,
      g ∉ (findGrains P minGrainSize mask).grainList) := by
  obtain ⟨hinv, hnz⟩ := findGrains_inv P minGrainSize mask hx2 hy2
  refine ⟨?_, ?_, hinv.label, ?_⟩
  · intro x y hx hy h1
    rcases hinv.vals (x, y) with h | h | h | ⟨_, h2⟩
    · omega
    · omega
    · omega
    · exact h2
  · intro k hk1 hk2
    have hi : k - 1 < (findGrains P minGrainSize mask).grainList.length := by omega
    obtain ⟨hne, hW⟩ := hinv.grainNonempty (k - 1) hi
    obtain ⟨c, hc⟩ := List.exists_mem_of_ne_nil _ hne
    have hlab := hinv.label (k - 1) hi c hc
    have heq : (findGrains P minGrainSize mask).grid c = (k : Int) := by
      rw [hlab]; omega
    exact ⟨c.1, c.2, (hW c hc).1, (hW c hc).2, heq⟩
  · intro g hg hmem
    have hsmall := hinv.small g hg
    obtain ⟨i, hi, he⟩ := List.mem_iff_getElem.mp hmem
    have hsize := hinv.size i hi
    rw [he] at hsize
    omega

/-- Witness for `c5_labels_contiguous_and_match_registry`: on the 2×2
probe map label `1` occurs and the registry has one grain. -/
theorem c5_labels_contiguous_and_match_registry_witness :
    1 ≤ shearProbeSeg.grainList.length ∧
    ∃ x y, x < shearProbeParams.xDim ∧ y < shearProbeParams.yDim ∧
      shearProbeSeg.grid (x, y) = (1 : Int) :=
  ⟨by decide,
    (c5_labels_contiguous_and_match_registry shearProbeParams 1 (fun _ => false)
      (by decide) (by decide)).2.1 1 (by decide) (by decide)⟩

/-- C6: every registered grain claims at least `minGrainSize` pixels
(counting its full claim, interior plus absorbed boundary pixels, which is
what `len(currentGrain)` counts), and every `-2` pixel belongs to a
recorded discarded grain whose full claim was smaller than
`minGrainSize`. -/
theorem c6_size_floor (P : FillParams) (minGrainSize : Nat) (mask : Coord → Bool)
    (hx2 : 2 ≤ P.xDim) (hy2 : 2 ≤ P.yDim) :
    (∀ g ∈ (findGrains P minGrainSize mask).grainList,
      minGrainSize ≤ g.coordList.length) ∧
    (∀ c, (findGrains P minGrainSize mask).grid c = -2 →
      ∃ g ∈ (findGrains P minGrainSize mask).discarded,
        c ∈ g.coordList ∧ g.coordList.length < minGrainSize) := by
  obtain ⟨hinv, _⟩ := findGrains_inv P minGrainSize mask hx2 hy2
  constructor
  · intro g hg
    obtain ⟨i, hi, he⟩ := List.mem_iff_getElem.mp hg
    have hsize := hinv.size i hi
    rw [he] at hsize
    exact hsize
  · intro c hc
    obtain ⟨g, hg1, hg2⟩ := hinv.purged c hc
    exact ⟨g, hg1, hg2, hinv.small g hg1⟩

/-- Witness for `c6_size_floor`: with `minGrainSize = 50` the single
4-pixel grain of the 2×2 probe map is purged as `-2`. -/
theorem c6_size_floor_witness :
    shearProbeSegBig.grid (0, 0) = -2 ∧
    ∃ g ∈ shearProbeSegBig.discarded, (0, 0) ∈ g.coordList ∧
      g.coordList.length < 50 :=
  ⟨by decide,
    (c6_size_floor shearProbeParams 50 (fun _ => false) (by decide) (by decide)).2
      (0, 0) (by decide)⟩

/-- C7: whenever a seed is found, one pass of the segmentation loop
strictly decreases the number of `0`-labelled in-window pixels (each pass
claims at least its seed and never writes `0`), so segmentation
terminates; and an all-boundary mask (zero unknown pixels) immediately
yields a successful empty registry with the grid untouched. -/
theorem c7_termination_and_empty_mask (P : FillParams) (minGrainSize : Nat)
    (mask : Coord → Bool) (hx2 : 2 ≤ P.xDim) (hy2 : 2 ≤ P.yDim) :
    (∀ (st : SegSt) (x y : Nat), SegInv P minGrainSize st →
      firstZero P st.grid = some (x, y) →
      countZeros P (segStep P minGrainSize st x y).grid < countZeros P st.grid) ∧
    ((∀ x y, x < P.xDim → y < P.yDim → mask (x, y) = true) →
      (findGrains P minGrainSize mask).grainList = [] ∧
      (findGrains P minGrainSize mask).grid = initGrid mask) := by
  constructor
  · intro st x y hinv hfz
    obtain ⟨hz, hxw, hyw⟩ := firstZero_some P st.grid x y hfz
    exact (segStep_inv P minGrainSize st x y hx2 hy2 hz hxw hyw hinv).2
  · intro hall
    have hnone : firstZero P (initGrid mask) = none := by
      refine firstZeroAux_eq_none _ _ ?_
      intro c hc
      obtain ⟨cx, cy⟩ := c
      obtain ⟨h1, h2⟩ := (mem_rowMajor P cx cy).mp hc
      simp [initGrid, hall cx cy h1 h2]
    have hres : findGrains P minGrainSize mask = ⟨initGrid mask, [], 1, []⟩ := by
      unfold findGrains segLoop
      rw [hnone]
    rw [hres]
    exact ⟨rfl, rfl⟩

/-- Witness for `c7_termination_and_empty_mask`: on the 2×2 probe map the
first pass strictly decreases the zero count, and the all-boundary 2×2
mask yields an empty registry. -/
theorem c7_termination_and_empty_mask_witness :
    firstZero shearProbeParams (initGrid (fun _ => false)) = some (0, 0) ∧
    countZeros shearProbeParams
        (segStep shearProbeParams 1 ⟨initGrid (fun _ => false), [], 1, []⟩ 0 0).grid <
      countZeros shearProbeParams (initGrid (fun _ => false)) ∧
    (findGrains shearProbeParams 1 (fun _ => true)).grainList = [] :=
  ⟨by decide,
    (c7_termination_and_empty_mask shearProbeParams 1 (fun _ => false)
        (by decide) (by decide)).1
      ⟨initGrid (fun _ => false), [], 1, []⟩ 0 0
      (segInv_init shearProbeParams 1 (fun _ => false)) (by decide),
    ((c7_termination_and_empty_mask shearProbeParams 1 (fun _ => true)
        (by decide) (by decide)).2 (fun _ _ _ _ => rfl)).1⟩

/-- C10: a `-1`-labelled neighbour is never appended to the frontier
accumulator, so the fill cannot propagate through boundary pixels: every
absorbed interior pixel is 4-connected to the seed through absorbed
interior (originally non-boundary) pixels only, and every absorbed
boundary pixel is 4-adjacent to an absorbed interior pixel of the same
grain. -/
theorem c10_boundary_pixels_never_propagate (P : FillParams) (g0 : LabelGrid)
    (gi : Int) (x y : Nat)
    (hgi0 : gi ≠ 0) (hgi1 : gi ≠ -1) (hseed : g0 (x, y) = 0)
    (hxw : x < P.xDim) (hyw : y < P.yDim) (hx2 : 2 ≤ P.xDim) (hy2 : 2 ≤ P.yDim) :
    (∀ (a b : Nat) (st : FillSt) (m : Coord), st.grid m = -1 →
      (processMove P gi a b st m).newedge = st.newedge) ∧
    (∀ c ∈ (floodFill P gi x y g0).2.coordList, g0 c = 0 →
      ConnZero g0 ((floodFill P gi x y g0).2.coordList) (x, y) c) ∧
    (∀ c ∈ (floodFill P gi x y g0).2.coordList, g0 c = -1 →
      ∃ d, d ∈ (floodFill P gi x y g0).2.coordList ∧ g0 d = 0 ∧ adj d c) := by
  have ctx : FillCtx P g0 gi (x, y) := ⟨hgi0, hgi1, hseed, ⟨hxw, hyw⟩, hx2, hy2⟩
  obtain ⟨finv, _⟩ := floodFill_inv ctx
  refine ⟨?_, finv.conn, finv.bnd⟩
  intro a b st m hm
  unfold processMove
  rw [if_neg (by rw [hm]; decide)]
  by_cases hcond : st.grid m = -1 ∧ (m.1 > a ∨ m.2 > b)
  · rw [if_pos hcond]
  · rw [if_neg hcond]

/-- Witness for `c10_boundary_pixels_never_propagate`: in the two-block
scenario the interior pixel `(1, 0)` of the first grain is chain-connected
to the seed `(0, 0)`. -/
theorem c10_boundary_pixels_never_propagate_witness :
    initGrid twoBlockMask (0, 0) = 0 ∧
    (1, 0) ∈ (floodFill twoBlockParams 1 0 0 (initGrid twoBlockMask)).2.coordList ∧
    ConnZero (initGrid twoBlockMask)
      ((floodFill twoBlockParams 1 0 0 (initGrid twoBlockMask)).2.coordList)
      (0, 0) (1, 0) :=
  ⟨by decide, by decide,
    (c10_boundary_pixels_never_propagate twoBlockParams (initGrid twoBlockMask) 1 0 0
        (by decide) (by decide) (by decide) (by decide) (by decide) (by decide)
        (by decide)).2.1
      (1, 0) (by decide) (by decide)⟩

end Hrdic
